import Mathlib

/-!
# Verification of the zuychin-assistant context-assembly pipeline

A shallow embedding of the deterministic orchestration logic of the
repository — outbound message splitting (Discord adapter), retrieval
reranking, history compaction, the deduplication guard and the
grounded-vs-tool generation loop of `ragChat` — together with theorems
settling the specification claims.  External collaborators (the model
backend and the persistent store) are abstracted as oracles: a fallible
call is a value of `Except String α` (`.error` models a rejected
promise / thrown exception).
-/

namespace Zuychin

/-! ## Outbound message splitting (`splitMessage`, Discord adapter)

Source: `splitMessage(text, maxLength)` — a while-loop that, as long as
`remaining.length > maxLength`, picks a split index (last newline at or
before the limit if it lies in the second half of the limit, else last
space under the same proviso, else a hard cut at the limit), pushes
`remaining.substring(0, splitIdx)` and continues with
`remaining.substring(splitIdx).trimStart()`.  Strings are modelled as
`List Char`. -/

/-- Characters removed by JavaScript `trimStart` (the ASCII whitespace
subset actually reachable here). -/
def jsWhitespace (c : Char) : Bool :=
  c = ' ' || c = '\t' || c = '\n' || c = '\r' || c = '\x0b' || c = '\x0c'

/-- Auxiliary scan for `lastIndexOf`: the index (offset by `i`) of the last
occurrence of `c` in the list. -/
def lastIdxAux (c : Char) : List Char → Nat → Option Nat
  | [], _ => none
  | a :: as, i =>
    match lastIdxAux c as (i + 1) with
    | some j => some j
    | none => if a = c then some i else none

/-- JavaScript `str.lastIndexOf(ch, pos)` for a single character: the last
index `≤ pos` whose character is `ch`, if any. -/
def lastIndexOfLe (l : List Char) (c : Char) (pos : Nat) : Option Nat :=
  lastIdxAux c (l.take (pos + 1)) 0

/-- The split-point choice of `splitMessage`: prefer the last newline at or
before the limit provided it does not lie in the first half of the limit
(`splitIdx < maxLength / 2` is the source's rejection test, rendered here as
`2 * i < maxLength`), else the last space under the same proviso, else a
hard cut at the limit. -/
def splitCandidate (remaining : List Char) (maxLength : Nat) : Option Nat :=
  match lastIndexOfLe remaining '\n' maxLength with
  | none => lastIndexOfLe remaining ' ' maxLength
  | some i =>
    if 2 * i < maxLength then lastIndexOfLe remaining ' ' maxLength else some i

def chooseSplitIdx (remaining : List Char) (maxLength : Nat) : Nat :=
  match splitCandidate remaining maxLength with
  | none => maxLength
  | some i => if 2 * i < maxLength then maxLength else i

/-- The split-point choice as the specification words it — last newline
within the limit, else last space within the limit, else hard cut — with no
half-of-the-limit proviso.  Stated only to compare with `chooseSplitIdx`. -/
def chooseSplitIdxClaimed (remaining : List Char) (maxLength : Nat) : Nat :=
  match lastIndexOfLe remaining '\n' maxLength with
  | some i => i
  | none =>
    match lastIndexOfLe remaining ' ' maxLength with
    | some i => i
    | none => maxLength

/-- The while-loop of `splitMessage`, indexed by fuel (an upper bound on the
iteration count; `text.length` always suffices when `1 ≤ maxLength`, see
`splitGo_fuel_irrelevant`). -/
def splitGo (maxLength : Nat) : Nat → List Char → List (List Char)
  | 0, remaining => if remaining.isEmpty then [] else [remaining]
  | fuel + 1, remaining =>
    if maxLength < remaining.length then
      let splitIdx := chooseSplitIdx remaining maxLength
      remaining.take splitIdx ::
        splitGo maxLength fuel ((remaining.drop splitIdx).dropWhile jsWhitespace)
    else if remaining.isEmpty then [] else [remaining]

/-- `splitMessage(text, maxLength)` from the Discord adapter. -/
def splitMessage (text : List Char) (maxLength : Nat) : List (List Char) :=
  splitGo maxLength text.length text

/-- The ordered list of transport calls issued by `sendDiscordMessage` for a
given outbound text (Discord limit 2000): the text itself when it fits, the
chunks of `splitMessage` in order otherwise. -/
def discordSendCalls (text : List Char) : List (List Char) :=
  if text.length ≤ 2000 then [text] else splitMessage text 2000

example : splitMessage "hello".toList 10 = ["hello".toList] := by decide

example :
    splitMessage "ab cd".toList 4 = ["ab".toList, "cd".toList] := by decide

/-! ### Properties of the split-point choice -/

theorem lastIdxAux_bounds {c : Char} (l : List Char) :
    ∀ i j, lastIdxAux c l i = some j → i ≤ j ∧ j < i + l.length := by
  induction l with
  | nil => intro i j h; simp [lastIdxAux] at h
  | cons a as ih =>
    intro i j h
    unfold lastIdxAux at h
    cases hrec : lastIdxAux c as (i + 1) with
    | some j' =>
      rw [hrec] at h
      obtain rfl : j' = j := by injection h
      obtain ⟨h1, h2⟩ := ih (i + 1) _ hrec
      simp only [List.length_cons]
      omega
    | none =>
      rw [hrec] at h
      by_cases hac : a = c
      · rw [if_pos hac] at h
        obtain rfl : i = j := by injection h
        simp only [List.length_cons]
        omega
      · rw [if_neg hac] at h
        exact absurd h (by simp)

theorem lastIndexOfLe_le {l : List Char} {c : Char} {pos j : Nat}
    (h : lastIndexOfLe l c pos = some j) : j ≤ pos ∧ j < l.length := by
  obtain ⟨-, h2⟩ := lastIdxAux_bounds _ _ _ h
  rw [List.length_take] at h2
  omega

theorem splitCandidate_le {remaining : List Char} {maxLength i : Nat}
    (h : splitCandidate remaining maxLength = some i) : i ≤ maxLength := by
  unfold splitCandidate at h
  split at h
  · exact (lastIndexOfLe_le h).1
  · rename_i i' h1
    split at h
    · exact (lastIndexOfLe_le h).1
    · obtain rfl : i' = i := by injection h
      exact (lastIndexOfLe_le h1).1

theorem chooseSplitIdx_le (remaining : List Char) (maxLength : Nat) :
    chooseSplitIdx remaining maxLength ≤ maxLength := by
  unfold chooseSplitIdx
  split
  · exact Nat.le_refl _
  · rename_i i h
    split
    · exact Nat.le_refl _
    · exact splitCandidate_le h

theorem chooseSplitIdx_pos (remaining : List Char) (maxLength : Nat)
    (hm : 1 ≤ maxLength) : 1 ≤ chooseSplitIdx remaining maxLength := by
  unfold chooseSplitIdx
  split
  · exact hm
  · rename_i i h
    split
    · exact hm
    · rename_i hge
      omega

/-! ### Chunk bound and reconstruction (claim C5) -/

theorem splitGo_chunks_and_recon (maxLength : Nat) (hm : 1 ≤ maxLength) :
    ∀ fuel remaining, remaining.length ≤ fuel →
      (∀ chunk ∈ splitGo maxLength fuel remaining, chunk.length ≤ maxLength) ∧
      ∃ ws : List (List Char),
        ws.length = (splitGo maxLength fuel remaining).length ∧
        (∀ w ∈ ws, ∀ ch ∈ w, jsWhitespace ch = true) ∧
        remaining = (List.zipWith (· ++ ·) (splitGo maxLength fuel remaining) ws).flatten := by
  intro fuel
  induction fuel with
  | zero =>
    intro remaining hlen
    have hnil : remaining = [] := List.eq_nil_of_length_eq_zero (Nat.le_zero.mp hlen)
    subst hnil
    exact ⟨by simp [splitGo], [], by simp [splitGo], by simp, by simp [splitGo]⟩
  | succ fuel ih =>
    intro remaining hlen
    by_cases hbig : maxLength < remaining.length
    · have hk_le : chooseSplitIdx remaining maxLength ≤ maxLength :=
        chooseSplitIdx_le remaining maxLength
      have hk_pos : 1 ≤ chooseSplitIdx remaining maxLength :=
        chooseSplitIdx_pos remaining maxLength hm
      set k := chooseSplitIdx remaining maxLength with hk
      set rest := (remaining.drop k).dropWhile jsWhitespace with hrestdef
      have hsplit : splitGo maxLength (fuel + 1) remaining =
          remaining.take k :: splitGo maxLength fuel rest := by
        rw [splitGo, if_pos hbig]
      have hrest_len : rest.length ≤ fuel := by
        have h1 : rest.length ≤ (remaining.drop k).length :=
          (List.dropWhile_sublist jsWhitespace).length_le
        rw [List.length_drop] at h1
        omega
      obtain ⟨hbound', ws', hlen', hws', hrecon'⟩ := ih rest hrest_len
      refine ⟨?_, (remaining.drop k).takeWhile jsWhitespace :: ws', ?_, ?_, ?_⟩
      · intro chunk hchunk
        rw [hsplit] at hchunk
        rcases List.mem_cons.mp hchunk with hfirst | hmem
        · subst hfirst
          rw [List.length_take]
          omega
        · exact hbound' chunk hmem
      · rw [hsplit]
        simp [hlen']
      · intro w hw ch hch
        rcases List.mem_cons.mp hw with hfirst | hmem
        · subst hfirst
          exact List.mem_takeWhile_imp hch
        · exact hws' w hmem ch hch
      · rw [hsplit]
        have hdecomp : remaining = remaining.take k ++
            ((remaining.drop k).takeWhile jsWhitespace ++ rest) := by
          rw [hrestdef, List.takeWhile_append_dropWhile, List.take_append_drop]
        calc remaining
            = remaining.take k ++ ((remaining.drop k).takeWhile jsWhitespace ++ rest) :=
              hdecomp
          _ = (List.zipWith (· ++ ·)
                (remaining.take k :: splitGo maxLength fuel rest)
                ((remaining.drop k).takeWhile jsWhitespace :: ws')).flatten := by
              rw [List.zipWith_cons_cons, List.flatten_cons, ← hrecon']
              simp [List.append_assoc]
    · have hsmall : remaining.length ≤ maxLength := Nat.le_of_not_lt hbig
      by_cases hempty : remaining.isEmpty
      · have hnil : remaining = [] := by
          cases remaining with
          | nil => rfl
          | cons a as => simp [List.isEmpty] at hempty
        subst hnil
        exact ⟨by simp [splitGo], [], by simp [splitGo], by simp, by simp [splitGo]⟩
      · have hsplit : splitGo maxLength (fuel + 1) remaining = [remaining] := by
          rw [splitGo, if_neg hbig, if_neg hempty]
        refine ⟨?_, [[]], by rw [hsplit]; rfl, by simp, ?_⟩
        · intro chunk hchunk
          rw [hsplit] at hchunk
          rcases List.mem_singleton.mp hchunk with rfl
          exact hsmall
        · rw [hsplit]
          simp

/-- **C5.**  For every input text and positive channel limit, `splitMessage`
produces chunks each of length at most the limit, and the original text is
reconstructed by reinserting, after each chunk, the run of whitespace that
`trimStart` removed at that split point — so no non-whitespace character is
lost, duplicated or reordered. -/
theorem claim_C5 (text : List Char) (maxLength : Nat) (hm : 1 ≤ maxLength) :
    (∀ chunk ∈ splitMessage text maxLength, chunk.length ≤ maxLength) ∧
    ∃ ws : List (List Char),
      ws.length = (splitMessage text maxLength).length ∧
      (∀ w ∈ ws, ∀ ch ∈ w, jsWhitespace ch = true) ∧
      text = (List.zipWith (· ++ ·) (splitMessage text maxLength) ws).flatten :=
  splitGo_chunks_and_recon maxLength hm text.length text (Nat.le_refl _)

/-- Witness for C5 at a concrete text and limit. -/
theorem claim_C5_witness :
    (1 ≤ 4 ∧ True) ∧
    ((∀ chunk ∈ splitMessage "ab cd ef".toList 4, chunk.length ≤ 4) ∧
      ∃ ws : List (List Char),
        ws.length = (splitMessage "ab cd ef".toList 4).length ∧
        (∀ w ∈ ws, ∀ ch ∈ w, jsWhitespace ch = true) ∧
        "ab cd ef".toList =
          (List.zipWith (· ++ ·) (splitMessage "ab cd ef".toList 4) ws).flatten) :=
  ⟨⟨by decide, trivial⟩, claim_C5 "ab cd ef".toList 4 (by decide)⟩

/-! ### Split-point preference (claim C6) -/

theorem splitGo_fuel_irrelevant (maxLength : Nat) (hm : 1 ≤ maxLength) :
    ∀ fuel fuel' remaining, remaining.length ≤ fuel → remaining.length ≤ fuel' →
      splitGo maxLength fuel remaining = splitGo maxLength fuel' remaining := by
  intro fuel
  induction fuel with
  | zero =>
    intro fuel' remaining hlen hlen'
    have hnil : remaining = [] := List.eq_nil_of_length_eq_zero (Nat.le_zero.mp hlen)
    subst hnil
    cases fuel' with
    | zero => rfl
    | succ f => simp [splitGo]
  | succ fuel ih =>
    intro fuel' remaining hlen hlen'
    cases fuel' with
    | zero =>
      have hnil : remaining = [] := List.eq_nil_of_length_eq_zero (Nat.le_zero.mp hlen')
      subst hnil
      simp [splitGo]
    | succ f =>
      by_cases hbig : maxLength < remaining.length
      · have hk_pos : 1 ≤ chooseSplitIdx remaining maxLength :=
          chooseSplitIdx_pos remaining maxLength hm
        have hrest_len : ((remaining.drop (chooseSplitIdx remaining maxLength)).dropWhile
            jsWhitespace).length ≤ remaining.length - 1 := by
          have h1 := (List.dropWhile_sublist (l := remaining.drop
            (chooseSplitIdx remaining maxLength)) jsWhitespace).length_le
          rw [List.length_drop] at h1
          omega
        have hsplit1 : splitGo maxLength (fuel + 1) remaining =
            remaining.take (chooseSplitIdx remaining maxLength) ::
              splitGo maxLength fuel
                ((remaining.drop (chooseSplitIdx remaining maxLength)).dropWhile
                  jsWhitespace) := by
          rw [splitGo, if_pos hbig]
        have hsplit2 : splitGo maxLength (f + 1) remaining =
            remaining.take (chooseSplitIdx remaining maxLength) ::
              splitGo maxLength f
                ((remaining.drop (chooseSplitIdx remaining maxLength)).dropWhile
                  jsWhitespace) := by
          rw [splitGo, if_pos hbig]
        rw [hsplit1, hsplit2,
          ih f ((remaining.drop (chooseSplitIdx remaining maxLength)).dropWhile jsWhitespace)
            (by omega) (by omega)]
      · rw [splitGo, splitGo, if_neg hbig, if_neg hbig]

theorem splitMessage_step (text : List Char) (maxLength : Nat) (hm : 1 ≤ maxLength)
    (hbig : maxLength < text.length) :
    splitMessage text maxLength =
      text.take (chooseSplitIdx text maxLength) ::
        splitMessage ((text.drop (chooseSplitIdx text maxLength)).dropWhile jsWhitespace)
          maxLength := by
  unfold splitMessage
  have hlen : 1 ≤ text.length := by omega
  obtain ⟨n, hn⟩ : ∃ n, text.length = n + 1 := ⟨text.length - 1, by omega⟩
  rw [hn, splitGo, if_pos hbig]
  have hk_pos : 1 ≤ chooseSplitIdx text maxLength :=
    chooseSplitIdx_pos text maxLength hm
  have hrest_len : ((text.drop (chooseSplitIdx text maxLength)).dropWhile
      jsWhitespace).length ≤ text.length - 1 := by
    have h1 := (List.dropWhile_sublist (l := text.drop
      (chooseSplitIdx text maxLength)) jsWhitespace).length_le
    rw [List.length_drop] at h1
    omega
  exact congrArg _ (splitGo_fuel_irrelevant maxLength hm n _ _ (by omega) (Nat.le_refl _))

/-- The concrete counterexample text for C6: a newline near the start,
followed by 2000 non-space characters, so the last newline within the
Discord limit sits in the first half of the limit. -/
def cexC6Text : List Char := 'a' :: 'b' :: '\n' :: List.replicate 2000 'c'

theorem lastIdxAux_append (c : Char) (l1 l2 : List Char) :
    ∀ i, lastIdxAux c (l1 ++ l2) i =
      match lastIdxAux c l2 (i + l1.length) with
      | some j => some j
      | none => lastIdxAux c l1 i := by
  induction l1 with
  | nil =>
    intro i
    simp only [List.nil_append, List.length_nil, Nat.add_zero]
    cases h : lastIdxAux c l2 i <;> rfl
  | cons a as ih =>
    intro i
    have hdef : lastIdxAux c ((a :: as) ++ l2) i =
        match lastIdxAux c (as ++ l2) (i + 1) with
        | some j => some j
        | none => if a = c then some i else none := rfl
    rw [hdef, ih (i + 1)]
    have hlen : i + (a :: as).length = i + 1 + as.length := by
      simp only [List.length_cons]
      omega
    rw [hlen]
    cases h2 : lastIdxAux c l2 (i + 1 + as.length) <;> rfl

theorem lastIdxAux_replicate_ne {c d : Char} (h : ¬(d = c)) :
    ∀ n i, lastIdxAux c (List.replicate n d) i = none := by
  intro n
  induction n with
  | zero => intro i; rfl
  | succ n ih =>
    intro i
    show lastIdxAux c (d :: List.replicate n d) i = none
    unfold lastIdxAux
    rw [ih (i + 1)]
    simp [h]

theorem cexC6_length : cexC6Text.length = 2003 := by
  show ('a' :: 'b' :: '\n' :: List.replicate 2000 'c').length = 2003
  rw [List.length_cons, List.length_cons, List.length_cons, List.length_replicate]

theorem cexC6_take_2001 :
    cexC6Text.take 2001 = ['a', 'b', '\n'] ++ List.replicate 1998 'c' := by
  show (['a', 'b', '\n'] ++ List.replicate 2000 'c').take 2001 = _
  rw [List.take_append_eq_append_take]
  have h1 : (['a', 'b', '\n'] : List Char).take 2001 = ['a', 'b', '\n'] :=
    List.take_of_length_le (by norm_num)
  have h2 : (2001 - (['a', 'b', '\n'] : List Char).length) = 1998 := by norm_num
  rw [h1, h2, List.take_replicate]
  norm_num

theorem cexC6_newline : lastIndexOfLe cexC6Text '\n' 2000 = some 2 := by
  unfold lastIndexOfLe
  have h2001 : (2000 : Nat) + 1 = 2001 := by norm_num
  rw [h2001, cexC6_take_2001, lastIdxAux_append,
    lastIdxAux_replicate_ne (by decide) 1998 _]
  decide

theorem cexC6_space : lastIndexOfLe cexC6Text ' ' 2000 = none := by
  unfold lastIndexOfLe
  have h2001 : (2000 : Nat) + 1 = 2001 := by norm_num
  rw [h2001, cexC6_take_2001, lastIdxAux_append,
    lastIdxAux_replicate_ne (by decide) 1998 _]
  decide

theorem cexC6_claimed : chooseSplitIdxClaimed cexC6Text 2000 = 2 := by
  unfold chooseSplitIdxClaimed
  rw [cexC6_newline]

theorem cexC6_chooseSplitIdx : chooseSplitIdx cexC6Text 2000 = 2000 := by
  unfold chooseSplitIdx splitCandidate
  rw [cexC6_newline, cexC6_space]
  norm_num

theorem cexC6_split :
    splitMessage cexC6Text 2000 = [cexC6Text.take 2000, List.replicate 3 'c'] := by
  have hstep := splitMessage_step cexC6Text 2000 (by norm_num)
    (by rw [cexC6_length]; norm_num)
  rw [cexC6_chooseSplitIdx] at hstep
  have hdrop : cexC6Text.drop 2000 = List.replicate 3 'c' := by
    show (['a', 'b', '\n'] ++ List.replicate 2000 'c').drop 2000 = _
    rw [List.drop_append_eq_append_drop]
    have h1 : (['a', 'b', '\n'] : List Char).drop 2000 = [] :=
      List.drop_eq_nil_of_le (by norm_num)
    have h2 : (2000 - (['a', 'b', '\n'] : List Char).length) = 1997 := by norm_num
    rw [h1, h2, List.drop_replicate]
    norm_num
  rw [hdrop] at hstep
  have hdw : (List.replicate 3 'c').dropWhile jsWhitespace = List.replicate 3 'c' := by
    decide
  rw [hdw] at hstep
  have hlast : splitMessage (List.replicate 3 'c') 2000 = [List.replicate 3 'c'] := by
    decide
  rw [hlast] at hstep
  exact hstep

/-- **C6 counterexample.**  On `cexC6Text` (length 2003, above the Discord
limit 2000) the last newline within the limit sits at index 2, so the split
rule as the claim states it would cut there; the code instead hard-cuts at
index 2000, because index 2 lies in the first half of the limit.  The first
emitted chunk therefore contains the newline instead of ending before it. -/
theorem claim_C6_counterexample :
    2000 < cexC6Text.length ∧
    lastIndexOfLe cexC6Text '\n' 2000 = some 2 ∧
    chooseSplitIdxClaimed cexC6Text 2000 = 2 ∧
    chooseSplitIdx cexC6Text 2000 = 2000 ∧
    splitMessage cexC6Text 2000 = [cexC6Text.take 2000, List.replicate 3 'c'] ∧
    cexC6Text.take 2000 ≠ cexC6Text.take 2 := by
  refine ⟨by rw [cexC6_length]; norm_num, cexC6_newline, cexC6_claimed,
    cexC6_chooseSplitIdx, cexC6_split, ?_⟩
  intro h
  have hl := congrArg List.length h
  rw [List.length_take, List.length_take, cexC6_length] at hl
  omega

/-- **C6 (amended).**  When splitting outbound text that exceeds the limit,
each split point is chosen by preferring the last newline within the limit
*provided it lies at or beyond half the limit*, falling back to the last
space within the limit under the same proviso, falling back to a hard cut
at the limit; the resulting chunks are the ordered list of transport calls
(`discordSendCalls`, limit 2000; one `channel.send` per chunk, in order). -/
theorem claim_C6_amended :
    (∀ (remaining : List Char) (maxLength i : Nat),
        lastIndexOfLe remaining '\n' maxLength = some i → maxLength ≤ 2 * i →
        chooseSplitIdx remaining maxLength = i) ∧
    (∀ (remaining : List Char) (maxLength : Nat),
        (lastIndexOfLe remaining '\n' maxLength = none ∨
          ∃ i, lastIndexOfLe remaining '\n' maxLength = some i ∧ 2 * i < maxLength) →
        (∀ j, lastIndexOfLe remaining ' ' maxLength = some j → maxLength ≤ 2 * j →
            chooseSplitIdx remaining maxLength = j) ∧
        ((lastIndexOfLe remaining ' ' maxLength = none ∨
            ∃ j, lastIndexOfLe remaining ' ' maxLength = some j ∧ 2 * j < maxLength) →
          chooseSplitIdx remaining maxLength = maxLength)) ∧
    (∀ (text : List Char) (maxLength : Nat), 1 ≤ maxLength → maxLength < text.length →
        splitMessage text maxLength =
          text.take (chooseSplitIdx text maxLength) ::
            splitMessage
              ((text.drop (chooseSplitIdx text maxLength)).dropWhile jsWhitespace)
              maxLength) ∧
    (∀ text : List Char, 2000 < text.length →
        discordSendCalls text = splitMessage text 2000) ∧
    (∀ text : List Char, text.length ≤ 2000 → discordSendCalls text = [text]) := by
  refine ⟨?_, ?_, ?_, ?_, ?_⟩
  · intro remaining maxLength i hnl hge
    have hni : ¬2 * i < maxLength := by omega
    simp [chooseSplitIdx, splitCandidate, hnl, hni]
  · intro remaining maxLength hnl
    constructor
    · intro j hsp hge
      have hnj : ¬2 * j < maxLength := by omega
      rcases hnl with h | ⟨i, hi, hlt⟩
      · simp [chooseSplitIdx, splitCandidate, h, hsp, hnj]
      · simp [chooseSplitIdx, splitCandidate, hi, hlt, hsp, hnj]
    · intro hsp
      rcases hnl with h | ⟨i, hi, hlt⟩
      · rcases hsp with h2 | ⟨j, hj, hjlt⟩
        · simp [chooseSplitIdx, splitCandidate, h, h2]
        · simp [chooseSplitIdx, splitCandidate, h, hj, hjlt]
      · rcases hsp with h2 | ⟨j, hj, hjlt⟩
        · simp [chooseSplitIdx, splitCandidate, hi, hlt, h2]
        · simp [chooseSplitIdx, splitCandidate, hi, hlt, hj, hjlt]
  · intro text maxLength hm hbig
    exact splitMessage_step text maxLength hm hbig
  · intro text hbig
    unfold discordSendCalls
    rw [if_neg (by omega)]
  · intro text hsmall
    unfold discordSendCalls
    rw [if_pos hsmall]

/-- Witness for the amended C6 at concrete inputs: a newline in the second
half of the limit is taken; a space in the first half forces a hard cut; the
step equation holds on a concrete oversized text; a short text is sent as a
single transport call. -/
theorem claim_C6_amended_witness :
    chooseSplitIdx "abc\ndefghij".toList 6 = 3 ∧
    chooseSplitIdx "ab cdefgh".toList 6 = 6 ∧
    splitMessage "ab cd ef".toList 4 =
      "ab cd ef".toList.take (chooseSplitIdx "ab cd ef".toList 4) ::
        splitMessage
          (("ab cd ef".toList.drop (chooseSplitIdx "ab cd ef".toList 4)).dropWhile
            jsWhitespace) 4 ∧
    discordSendCalls "hi".toList = ["hi".toList] :=
  ⟨claim_C6_amended.1 _ 6 3 (by decide) (by decide),
   (claim_C6_amended.2.1 _ 6 (Or.inl (by decide))).2 (Or.inr ⟨2, by decide, by decide⟩),
   claim_C6_amended.2.2.1 _ 4 (by decide) (by decide),
   claim_C6_amended.2.2.2.2 _ (by decide)⟩

/-! ## Retrieval reranking (`rerankResults`)

Source: `rerankResults(results, query, maxResults)` — pure function scoring
each candidate as cosine similarity (0.7 when absent) plus a keyword-overlap
bonus plus a recency bonus, stable-sorting descending by total score
(JavaScript `Array.prototype.sort` is stable since ES2019) and truncating
to `maxResults`.  JavaScript strings are modelled as `List Char`. -/

/-- The row shape `rerankResults` receives: content, optional metadata and
optional cosine similarity.  (The store adapter drops `similarity` when
mapping rows, so it is frequently absent — hence the 0.7 default below.) -/
structure KnowledgeItem where
  id : String
  content : List Char
  metadata : List (String × String)
  similarity : Option ℚ
deriving DecidableEq

/-- `r.metadata?.source ?? ""`. -/
def metaSource (r : KnowledgeItem) : String :=
  ((r.metadata.find? (fun p => p.1 == "source")).map (fun p => p.2)).getD ""

/-- Whether `needle` is a prefix of `hay`. -/
def isPrefixList : List Char → List Char → Bool
  | [], _ => true
  | _ :: _, [] => false
  | a :: as, b :: bs => a = b && isPrefixList as bs

/-- JavaScript `hay.includes(needle)`: contiguous-substring test. -/
def containsSub (needle : List Char) : List Char → Bool
  | [] => needle.isEmpty
  | b :: bs => isPrefixList needle (b :: bs) || containsSub needle bs

/-- JavaScript `str.split(/\\s+/)`: tokens between maximal whitespace runs
(with the leading/trailing empty tokens JavaScript produces).  `inWs` says
whether the previous character was part of a whitespace run. -/
def splitWsAux : List Char → Bool → List Char → List (List Char)
  | [], _, cur => [cur.reverse]
  | c :: cs, inWs, cur =>
    if jsWhitespace c then
      if inWs then splitWsAux cs true cur
      else cur.reverse :: splitWsAux cs true []
    else splitWsAux cs false (c :: cur)

def splitWs (l : List Char) : List (List Char) :=
  splitWsAux l false []

/-- Deduplication keeping first occurrences (JavaScript `Set` insertion
order). -/
def dedupKeepFirst {α : Type} [DecidableEq α] : List α → List α
  | [] => []
  | t :: ts => t :: (dedupKeepFirst ts).filter (fun u => decide (u ≠ t))

/-- `new Set(query.toLowerCase().split(/\\s+/).filter(t => t.length > 2))`:
lower-cased whitespace-split tokens longer than 2 characters, deduplicated. -/
def queryTermsOf (query : List Char) : List (List Char) :=
  dedupKeepFirst ((splitWs (query.map Char.toLower)).filter (fun t => t.length > 2))

/-- The total score of one candidate: cosine similarity (default `0.7` when
absent) + keyword-overlap bonus (`matched / total * 0.2`, literal-substring
matching against the lower-cased content) + recency bonus (`0.05` when the
metadata tags the source as the live user-message stream). -/
def rerankTotalScore (queryTerms : List (List Char)) (r : KnowledgeItem) : ℚ :=
  let cosineSim := r.similarity.getD (7 / 10)
  let contentLower := r.content.map Char.toLower
  let keywordHits := (queryTerms.filter (fun t => containsSub t contentLower)).length
  let keywordScore : ℚ :=
    if queryTerms.length > 0 then
      ((keywordHits : ℚ) / (queryTerms.length : ℚ)) * (2 / 10)
    else 0
  let recencyBonus : ℚ := if metaSource r = "user_message" then 5 / 100 else 0
  cosineSim + keywordScore + recencyBonus

example : splitWs "  alpha beta ".toList =
    [[], ['a','l','p','h','a'], ['b','e','t','a'], []] := by decide

example : queryTermsOf "The Alpha cat".toList = [['t','h','e'], ['a','l','p','h','a'], ['c','a','t']] := by decide

/-- A candidate annotated with its original position and its total score. -/
structure RankedEntry where
  idx : Nat
  item : KnowledgeItem
  score : ℚ
deriving DecidableEq

/-- The order realised by `scored.sort((a, b) => b.totalScore - a.totalScore)`:
since JavaScript sort is stable, the result is ordered by score descending
and, between equal scores, by original position ascending. -/
def jsSortRel (a b : RankedEntry) : Prop :=
  b.score < a.score ∨ (a.score = b.score ∧ a.idx ≤ b.idx)

instance : DecidableRel jsSortRel := fun a b => by
  unfold jsSortRel
  infer_instance

instance : IsTotal RankedEntry jsSortRel := by
  constructor
  intro a b
  rcases lt_trichotomy a.score b.score with h | h | h
  · exact Or.inr (Or.inl h)
  · rcases Nat.le_total a.idx b.idx with hi | hi
    · exact Or.inl (Or.inr ⟨h, hi⟩)
    · exact Or.inr (Or.inr ⟨h.symm, hi⟩)
  · exact Or.inl (Or.inl h)

instance : IsTrans RankedEntry jsSortRel := by
  constructor
  intro a b c hab hbc
  rcases hab with h1 | ⟨h1, h1'⟩ <;> rcases hbc with h2 | ⟨h2, h2'⟩
  · exact Or.inl (by linarith)
  · exact Or.inl (by linarith)
  · exact Or.inl (by linarith)
  · exact Or.inr ⟨by linarith, by omega⟩

/-- The `scored` array of the source — each candidate paired with its total
score — annotated with original positions. -/
def scoredEntries (results : List KnowledgeItem) (query : List Char) :
    List RankedEntry :=
  ((results.map (fun r => (r, rerankTotalScore (queryTermsOf query) r))).enum).map
    (fun p => ⟨p.1, p.2.1, p.2.2⟩)

/-- The stable descending sort of the scored candidates. -/
def rerankScored (results : List KnowledgeItem) (query : List Char) :
    List RankedEntry :=
  List.insertionSort jsSortRel (scoredEntries results query)

/-- `rerankResults`: score, stable-sort descending, truncate to
`maxResults`, forget the annotations. -/
def rerankResults (results : List KnowledgeItem) (query : List Char)
    (maxResults : Nat) : List KnowledgeItem :=
  ((rerankScored results query).take maxResults).map (fun e => e.item)

theorem scoredEntries_idx_ne (results : List KnowledgeItem) (query : List Char) :
    (scoredEntries results query).Pairwise (fun a b => a.idx ≠ b.idx) := by
  unfold scoredEntries
  rw [List.pairwise_map]
  have h1 := List.nodup_enum_map_fst
    (results.map (fun r => (r, rerankTotalScore (queryTermsOf query) r)))
  have h2 : List.Pairwise (fun a b => a ≠ b)
      (((results.map (fun r => (r, rerankTotalScore (queryTermsOf query) r))).enum).map
        Prod.fst) := h1
  rw [List.pairwise_map] at h2
  exact h2.imp (fun h => h)

theorem scoredEntries_mem {results : List KnowledgeItem} {query : List Char}
    {e : RankedEntry} (he : e ∈ scoredEntries results query) :
    e.score = rerankTotalScore (queryTermsOf query) e.item ∧
    results[e.idx]? = some e.item := by
  unfold scoredEntries at he
  rw [List.mem_map] at he
  obtain ⟨p, hp, rfl⟩ := he
  obtain ⟨i, a, rfl⟩ : ∃ i a, p = (i, a) := ⟨p.1, p.2, rfl⟩
  have hg := List.mk_mem_enum_iff_getElem?.mp hp
  rw [List.getElem?_map, Option.map_eq_some'] at hg
  obtain ⟨r, hr, hra⟩ := hg
  obtain rfl : (r, rerankTotalScore (queryTermsOf query) r) = a := hra
  exact ⟨rfl, hr⟩

/-- **C4.**  For every candidate list, query and `maxResults`:
the output has length at most `maxResults` and consists of the first
`maxResults` entries of the stable descending sort of the scored
candidates; that sort is ordered non-increasingly by total score, entries
with equal total score keep their relative input order (strictly increasing
original positions), it is a permutation of the scored input, and every
entry carries exactly the composite score — cosine similarity defaulting to
0.7, keyword-overlap bonus, recency bonus — of the item sitting at its
original input position. -/
theorem claim_C4 (results : List KnowledgeItem) (query : List Char)
    (maxResults : Nat) :
    (rerankResults results query maxResults).length ≤ maxResults ∧
    rerankResults results query maxResults =
      ((rerankScored results query).take maxResults).map (fun e => e.item) ∧
    (rerankScored results query).Pairwise
      (fun a b => b.score ≤ a.score ∧ (a.score = b.score → a.idx < b.idx)) ∧
    (rerankScored results query).Perm (scoredEntries results query) ∧
    ∀ e ∈ rerankScored results query,
      e.score = rerankTotalScore (queryTermsOf query) e.item ∧
      results[e.idx]? = some e.item := by
  have hperm : (rerankScored results query).Perm (scoredEntries results query) :=
    List.perm_insertionSort jsSortRel (scoredEntries results query)
  have hsorted : (rerankScored results query).Pairwise jsSortRel :=
    List.sorted_insertionSort jsSortRel (scoredEntries results query)
  have hne : (rerankScored results query).Pairwise (fun a b => a.idx ≠ b.idx) :=
    (hperm.pairwise_iff (fun h => Ne.symm h)).mpr (scoredEntries_idx_ne results query)
  refine ⟨?_, rfl, ?_, hperm, ?_⟩
  · unfold rerankResults
    rw [List.length_map, List.length_take]
    omega
  · refine (hsorted.and hne).imp ?_
    rintro a b ⟨hab, hne'⟩
    rcases hab with h | ⟨h, h'⟩
    · refine ⟨le_of_lt h, ?_⟩
      intro heq
      exact absurd (heq ▸ h) (lt_irrefl _)
    · exact ⟨le_of_eq h.symm, fun _ => lt_of_le_of_ne h' hne'⟩
  · intro e he
    exact scoredEntries_mem (hperm.mem_iff.mp he)

/-- Witness for C4 at a concrete candidate list and query (the inner
conjuncts of `claim_C4` carry implications, so this closed instance records
that they are satisfiable). -/
theorem claim_C4_witness :
    (rerankResults
        [⟨"a", "alpha beta".toList, [], none⟩,
         ⟨"b", "alpha beta".toList, [], none⟩,
         ⟨"c", "alpha beta".toList, [("source", "user_message")], none⟩]
        "alpha".toList 2).length ≤ 2 ∧
    (rerankScored
        [⟨"a", "alpha beta".toList, [], none⟩,
         ⟨"b", "alpha beta".toList, [], none⟩,
         ⟨"c", "alpha beta".toList, [("source", "user_message")], none⟩]
        "alpha".toList).Pairwise
      (fun a b => b.score ≤ a.score ∧ (a.score = b.score → a.idx < b.idx)) :=
  ⟨(claim_C4 _ _ 2).1, (claim_C4 _ _ 2).2.2.1⟩

/-! ## RAG configuration

`RAG_CONFIG` from the source, verbatim (rationals for the float fields). -/

structure RagConfigShape where
  matchThreshold : ℚ
  matchCount : Nat
  maxContextItems : Nat
  historyFetchCount : Nat
  recentMessageCount : Nat
  summarizationThreshold : Nat
  deduplicationThreshold : ℚ
  maxToolRounds : Nat

def RAG_CONFIG : RagConfigShape :=
  { matchThreshold := 72 / 100
    matchCount := 5
    maxContextItems := 3
    historyFetchCount := 20
    recentMessageCount := 5
    summarizationThreshold := 8
    deduplicationThreshold := 95 / 100
    maxToolRounds := 5 }

/-! ## History compaction

Source: the summarization block of `ragChat` plus `summarizeHistory`.
`getRecentMessages` fetches the newest `historyFetchCount` rows
newest-first and reverses them, so the fetched history list is
chronological (oldest first). -/

inductive Role
  | user
  | assistant
  | system
deriving DecidableEq

structure ChatMessage where
  role : Role
  content : String
deriving DecidableEq

/-- `getRecentMessages`: the store returns the newest rows first; the
adapter reverses them into chronological (oldest-first) order. -/
def getRecentMessages (rowsNewestFirst : List ChatMessage) : List ChatMessage :=
  rowsNewestFirst.reverse

/-- One transcript line: `"{Role}: {content}"` (`system` renders as
`Assistant`, exactly as the source's ternary does). -/
def renderLine (m : ChatMessage) : String :=
  (if m.role = Role.user then "User" else "Assistant") ++ ": " ++ m.content

/-- `messages.map(...).join("\n")`. -/
def renderTranscript (ms : List ChatMessage) : String :=
  String.intercalate "\n" (ms.map renderLine)

/-- JavaScript `s.slice(-n)`: the last `n` characters (the whole string when
shorter). -/
def sliceLast (n : Nat) (s : String) : String :=
  String.mk (s.toList.drop (s.toList.length - n))

/-- `summarizeHistory(messages)` with the summary model call abstracted:
`oracle = .ok t` models a response whose `response.text` is `t`; `.error`
models a thrown call, caught in the source and answered with the last 500
characters of the transcript. -/
def summarizeHistory (oracle : Except String (Option String))
    (messages : List ChatMessage) : String :=
  if messages.isEmpty then ""
  else
    match oracle with
    | .ok t => (t.map String.trim).getD ""
    | .error _ => sliceLast 500 (renderTranscript messages)

/-- The history-section construction of `ragChat`: verbatim rendering at or
below the summarization threshold, summary of the older segment plus
verbatim recent segment above it.  The second component lists the argument
of every `summarizeHistory` invocation the step performs. -/
def historyPhase (oracle : Except String (Option String))
    (recentMessages : List ChatMessage) : String × List (List ChatMessage) :=
  if recentMessages.length > RAG_CONFIG.summarizationThreshold then
    let olderMessages :=
      recentMessages.take (recentMessages.length - RAG_CONFIG.recentMessageCount)
    let recentSlice :=
      recentMessages.drop (recentMessages.length - RAG_CONFIG.recentMessageCount)
    ("## Conversation Summary\n" ++ summarizeHistory oracle olderMessages ++
        "\n\n## Recent Messages\n" ++ renderTranscript recentSlice,
      [olderMessages])
  else if recentMessages.length > 0 then
    ("## Recent Conversation\n" ++ renderTranscript recentMessages, [])
  else ("", [])

/-- **C7.**  On a fetched history of length at most the compaction threshold
(8), the compaction step renders every message verbatim — one
`"{Role}: {content}"` entry per message, joined by newlines in the fetched
(chronological, oldest-first) order, under the `## Recent Conversation`
header — and never invokes the summarizer. -/
theorem claim_C7 (oracle : Except String (Option String))
    (msgs : List ChatMessage)
    (h : msgs.length ≤ RAG_CONFIG.summarizationThreshold) :
    (historyPhase oracle msgs).2 = [] ∧
    (msgs.length = 0 → (historyPhase oracle msgs).1 = "") ∧
    (0 < msgs.length →
      (historyPhase oracle msgs).1 =
        "## Recent Conversation\n" ++
          String.intercalate "\n" (msgs.map renderLine)) := by
  have hng : ¬msgs.length > RAG_CONFIG.summarizationThreshold := by
    simp only [RAG_CONFIG] at h ⊢
    omega
  unfold historyPhase
  rw [if_neg hng]
  by_cases hz : msgs.length > 0
  · rw [if_pos hz]
    exact ⟨rfl, fun h0 => absurd h0 (by omega), fun _ => rfl⟩
  · rw [if_neg hz]
    exact ⟨rfl, fun _ => rfl, fun h0 => absurd h0 hz⟩

/-- Witness for C7: two messages (below the threshold) render verbatim with
no summarizer call. -/
theorem claim_C7_witness :
    (historyPhase (Except.ok (some "sum"))
        [⟨Role.user, "hi"⟩, ⟨Role.assistant, "hello"⟩]).2 = [] ∧
    (historyPhase (Except.ok (some "sum"))
        [⟨Role.user, "hi"⟩, ⟨Role.assistant, "hello"⟩]).1 =
      "## Recent Conversation\n" ++
        String.intercalate "\n"
          (([⟨Role.user, "hi"⟩, ⟨Role.assistant, "hello"⟩] :
            List ChatMessage).map renderLine) :=
  ⟨(claim_C7 _ _ (by decide)).1, (claim_C7 _ _ (by decide)).2.2 (by decide)⟩

/-- **C8.**  On a fetched history strictly longer than the threshold (8),
the compaction step splits exactly at `length − recentKeep` (recentKeep =
5): the older segment — all but the last 5 messages — is the exact argument
of the single summarizer invocation, and the last 5 messages appear
verbatim after the summary section. -/
theorem claim_C8 (oracle : Except String (Option String))
    (msgs : List ChatMessage)
    (h : RAG_CONFIG.summarizationThreshold < msgs.length) :
    (historyPhase oracle msgs).2 =
      [msgs.take (msgs.length - RAG_CONFIG.recentMessageCount)] ∧
    (historyPhase oracle msgs).1 =
      "## Conversation Summary\n" ++
        summarizeHistory oracle
          (msgs.take (msgs.length - RAG_CONFIG.recentMessageCount)) ++
        "\n\n## Recent Messages\n" ++
        String.intercalate "\n"
          ((msgs.drop (msgs.length - RAG_CONFIG.recentMessageCount)).map
            renderLine) := by
  have hg : msgs.length > RAG_CONFIG.summarizationThreshold := h
  unfold historyPhase
  rw [if_pos hg]
  exact ⟨rfl, by simp [renderTranscript, String.append_assoc]⟩

/-- Witness for C8: nine messages split into the first four (summarized) and
the last five (verbatim). -/
theorem claim_C8_witness :
    (historyPhase (Except.ok (some "the summary"))
        ((List.range 9).map (fun i => ⟨Role.user, toString i⟩))).2 =
      [((List.range 9).map (fun i => (⟨Role.user, toString i⟩ : ChatMessage))).take 4] ∧
    (historyPhase (Except.ok (some "the summary"))
        ((List.range 9).map (fun i => ⟨Role.user, toString i⟩))).1 =
      "## Conversation Summary\n" ++
        summarizeHistory (Except.ok (some "the summary"))
          (((List.range 9).map (fun i => (⟨Role.user, toString i⟩ : ChatMessage))).take 4) ++
        "\n\n## Recent Messages\n" ++
        String.intercalate "\n"
          ((((List.range 9).map
              (fun i => (⟨Role.user, toString i⟩ : ChatMessage))).drop 4).map
            renderLine) := by
  have h := claim_C8 (Except.ok (some "the summary"))
    ((List.range 9).map (fun i => ⟨Role.user, toString i⟩))
    (by simp [RAG_CONFIG])
  have hlen : (((List.range 9).map
      (fun i => (⟨Role.user, toString i⟩ : ChatMessage))).length -
        RAG_CONFIG.recentMessageCount) = 4 := by
    simp [RAG_CONFIG]
  rw [hlen] at h
  exact h

/-! ## Generation orchestration (grounded mode vs tool mode)

Source: the generation section of `ragChat`.  The backend is abstracted:
`searchAttempt` is the result of the single grounded (`googleSearch`)
attempt; `toolAttempt k` is the result of the `k`-th tool-mode call
(`k = 0` the initial fallback call, `k ≥ 1` the loop regenerations — the
accumulated `contents` the source passes are absorbed into the index). -/

/-- A model response, reduced to the fields the orchestrator inspects:
`response.functionCalls?.[0]?.name` and `response.text`. -/
structure GenResponse where
  functionCallName : Option String
  text : Option String
deriving DecidableEq

/-- The source's loop guard `if (!fc?.name) break`: a pending tool request
means a first function call with a non-empty name. -/
def hasToolCall (r : GenResponse) : Bool :=
  match r.functionCallName with
  | some n => !n.isEmpty
  | none => false

/-- The configuration used by one `generateContent` call: `searchConfig`
(googleSearch, no function declarations) or `toolConfig` (function
declarations, no googleSearch). -/
inductive GenConfig
  | search
  | tool
deriving DecidableEq

/-- The tool-call loop (`for round in 0..<maxToolRounds`): while the latest
response carries a tool call, execute the tool and regenerate with the tool
configuration.  Returns the final response (or the propagated error of a
failed regeneration, which the source does not catch) together with the
number of rounds begun.  `oracle k` is the `k`-th regeneration. -/
def toolLoop : (Nat → Except String GenResponse) → GenResponse → Nat →
    Except String GenResponse × Nat
  | _, resp, 0 => (Except.ok resp, 0)
  | oracle, resp, fuel + 1 =>
    if hasToolCall resp then
      match oracle 0 with
      | .error e => (.error e, 1)
      | .ok next =>
        let r := toolLoop (fun k => oracle (k + 1)) next fuel
        (r.1, r.2 + 1)
    else (.ok resp, 0)

structure GenEnv where
  searchAttempt : Except String GenResponse
  toolAttempt : Nat → Except String GenResponse

/-- What one run of the generation section yields: the reply text (or the
turn-failing error), the configuration of every `generateContent` call in
order, and the number of tool-loop rounds begun. -/
structure GenOutcome where
  result : Except String String
  configTrace : List GenConfig
  loopRounds : Nat

/-- The generation section of `ragChat`: try the grounded configuration
once; on failure fall back to the tool configuration for the whole turn and
run the tool loop (round cap `RAG_CONFIG.maxToolRounds`); the reply is
`response.text ?? ""` of the final response. -/
def generationPhase (env : GenEnv) : GenOutcome :=
  match env.searchAttempt with
  | .ok resp => ⟨.ok (resp.text.getD ""), [GenConfig.search], 0⟩
  | .error _ =>
    match env.toolAttempt 0 with
    | .error e => ⟨.error e, [GenConfig.search, GenConfig.tool], 0⟩
    | .ok resp0 =>
      let lr := toolLoop (fun k => env.toolAttempt (k + 1)) resp0
        RAG_CONFIG.maxToolRounds
      ⟨lr.1.map (fun fin => fin.text.getD ""),
        GenConfig.search :: GenConfig.tool :: List.replicate lr.2 GenConfig.tool,
        lr.2⟩

theorem toolLoop_rounds_le :
    ∀ (fuel : Nat) (oracle : Nat → Except String GenResponse)
      (resp : GenResponse), (toolLoop oracle resp fuel).2 ≤ fuel := by
  intro fuel
  induction fuel with
  | zero => intro oracle resp; simp [toolLoop]
  | succ n ih =>
    intro oracle resp
    rw [toolLoop]
    by_cases hc : hasToolCall resp
    · rw [if_pos hc]
      cases ho : oracle 0 with
      | error e => simp
      | ok next =>
        have := ih (fun k => oracle (k + 1)) next
        simp only
        omega
    · rw [if_neg hc]
      simp

theorem toolLoop_all_ok :
    ∀ (fuel : Nat) (oracle : Nat → Except String GenResponse),
      (∀ k, ∃ r, oracle k = .ok r) →
      ∀ resp, ∃ fin, (toolLoop oracle resp fuel).1 = .ok fin := by
  intro fuel
  induction fuel with
  | zero => intro oracle _ resp; exact ⟨resp, rfl⟩
  | succ n ih =>
    intro oracle ho resp
    rw [toolLoop]
    by_cases hc : hasToolCall resp
    · rw [if_pos hc]
      obtain ⟨r0, hr0⟩ := ho 0
      rw [hr0]
      obtain ⟨fin, hfin⟩ := ih (fun k => oracle (k + 1)) (fun k => ho (k + 1)) r0
      exact ⟨fin, hfin⟩
    · rw [if_neg hc]
      exact ⟨resp, rfl⟩

theorem toolLoop_cap :
    ∀ (fuel : Nat) (oracle : Nat → Except String GenResponse)
      (r : Nat → GenResponse),
      (∀ k, oracle k = .ok (r k)) →
      ∀ resp, hasToolCall resp = true →
      (∀ j, j + 1 < fuel → hasToolCall (r j) = true) →
      0 < fuel →
      toolLoop oracle resp fuel = (.ok (r (fuel - 1)), fuel) := by
  intro fuel
  induction fuel with
  | zero => intro _ _ _ _ _ _ h0; omega
  | succ n ih =>
    intro oracle r ho resp hresp hj _
    rw [toolLoop, if_pos hresp, ho 0]
    cases n with
    | zero => simp [toolLoop]
    | succ m =>
      have hrec := ih (fun k => oracle (k + 1)) (fun k => r (k + 1))
        (fun k => ho (k + 1)) (r 0)
        (hj 0 (by omega))
        (fun j hjlt => hj (j + 1) (by omega))
        (by omega)
      have harg : m + 1 - 1 + 1 = m + 1 + 1 - 1 := by omega
      simp only [hrec, harg]

/-- **C2 (amended).**  In tool mode the loop performs at most
`maxToolRounds = 5` rounds, even when every response carries a new tool
call; when every backend call succeeds the section returns a reply without
raising (reaching the round cap with a tool request still pending returns
the last generated text as-is) — but that reply is whatever
`response.text ?? ""` yields and may be the empty string. -/
theorem claim_C2_amended (env : GenEnv) :
    (generationPhase env).loopRounds ≤ RAG_CONFIG.maxToolRounds ∧
    ∀ (e : String) (r : Nat → GenResponse),
      env.searchAttempt = .error e →
      (∀ k, env.toolAttempt k = .ok (r k)) →
      (∃ fin, (generationPhase env).result = .ok fin) ∧
      ((∀ j, j < RAG_CONFIG.maxToolRounds → hasToolCall (r j) = true) →
        (generationPhase env).result =
          .ok ((r RAG_CONFIG.maxToolRounds).text.getD "") ∧
        (generationPhase env).loopRounds = RAG_CONFIG.maxToolRounds) := by
  constructor
  · unfold generationPhase
    cases hs : env.searchAttempt with
    | ok resp => simp [RAG_CONFIG]
    | error e =>
      cases ht : env.toolAttempt 0 with
      | error e2 => simp [RAG_CONFIG]
      | ok resp0 =>
        exact toolLoop_rounds_le RAG_CONFIG.maxToolRounds
          (fun k => env.toolAttempt (k + 1)) resp0
  · intro e r hs ho
    have hphase : generationPhase env =
        ⟨(toolLoop (fun k => env.toolAttempt (k + 1)) (r 0)
            RAG_CONFIG.maxToolRounds).1.map (fun fin => fin.text.getD ""),
          GenConfig.search :: GenConfig.tool ::
            List.replicate (toolLoop (fun k => env.toolAttempt (k + 1)) (r 0)
              RAG_CONFIG.maxToolRounds).2 GenConfig.tool,
          (toolLoop (fun k => env.toolAttempt (k + 1)) (r 0)
            RAG_CONFIG.maxToolRounds).2⟩ := by
      unfold generationPhase
      rw [hs, ho 0]
    constructor
    · obtain ⟨fin, hfin⟩ := toolLoop_all_ok RAG_CONFIG.maxToolRounds
        (fun k => env.toolAttempt (k + 1)) (fun k => ⟨r (k + 1), ho (k + 1)⟩)
        (r 0)
      rw [hphase]
      simp only [hfin]
      exact ⟨fin.text.getD "", rfl⟩
    · intro hall
      have hcap := toolLoop_cap RAG_CONFIG.maxToolRounds
        (fun k => env.toolAttempt (k + 1)) (fun k => r (k + 1))
        (fun k => ho (k + 1)) (r 0)
        (hall 0 (by decide))
        (fun j hjlt => hall (j + 1) hjlt)
        (by decide)
      rw [hphase, hcap]
      exact ⟨rfl, rfl⟩

/-- The concrete generation environment refuting the never-empty clause of
C2: grounding fails, the first tool-mode response carries a tool call, the
regeneration answers with no tool call and no text. -/
def cexC2Env : GenEnv :=
  { searchAttempt := .error "googleSearch rejected",
    toolAttempt := fun k =>
      if k = 0 then
        .ok { functionCallName := some "get_current_time", text := some "calling" }
      else
        .ok { functionCallName := none, text := none } }

/-- **C2 counterexample.**  One tool round completes, yet the returned reply
text is the empty string (`response.text ?? ""` with an absent final
text). -/
theorem claim_C2_counterexample :
    (generationPhase cexC2Env).loopRounds = 1 ∧
    (generationPhase cexC2Env).result = .ok "" := by
  exact ⟨rfl, rfl⟩

/-- **C3.**  Every turn opens with exactly one grounded-configuration call;
every later call of the turn uses the tool configuration (the mode is
decided once per turn); and after a successful grounded call the trace is
that single call — the tool loop never runs. -/
theorem claim_C3 (env : GenEnv) :
    (generationPhase env).configTrace.head? = some GenConfig.search ∧
    (∀ c ∈ (generationPhase env).configTrace.tail, c = GenConfig.tool) ∧
    ∀ resp, env.searchAttempt = .ok resp →
      (generationPhase env).configTrace = [GenConfig.search] ∧
      (generationPhase env).loopRounds = 0 := by
  unfold generationPhase
  cases hs : env.searchAttempt with
  | ok resp =>
    refine ⟨rfl, ?_, fun _ _ => ⟨rfl, rfl⟩⟩
    intro c hc
    simp at hc
  | error e =>
    cases ht : env.toolAttempt 0 with
    | error e2 =>
      refine ⟨rfl, ?_, ?_⟩
      · intro c hc
        simp only [List.tail_cons] at hc
        simpa using hc
      · intro resp hresp
        exact absurd hresp (by simp)
    | ok resp0 =>
      refine ⟨rfl, ?_, ?_⟩
      · intro c hc
        simp only [List.tail_cons] at hc
        rcases List.mem_cons.mp hc with rfl | hmem
        · rfl
        · exact List.eq_of_mem_replicate hmem
      · intro resp hresp
        exact absurd hresp (by simp)

/-- Witness for C3: a successful grounded call yields the single-entry
search trace and a dormant tool loop. -/
theorem claim_C3_witness :
    (generationPhase
        { searchAttempt := .ok { functionCallName := none, text := some "grounded answer" },
          toolAttempt := fun _ => .ok { functionCallName := none, text := none } }).configTrace =
      [GenConfig.search] ∧
    (generationPhase
        { searchAttempt := .ok { functionCallName := none, text := some "grounded answer" },
          toolAttempt := fun _ => .ok { functionCallName := none, text := none } }).loopRounds = 0 :=
  (claim_C3 _).2.2 _ rfl

/-- The generation environment for the C2 witness: grounding fails and every
tool-mode response carries a fresh tool call, so the loop hits the cap. -/
def witC2Env : GenEnv :=
  { searchAttempt := .error "grounding unavailable",
    toolAttempt := fun _ =>
      .ok { functionCallName := some "save_note", text := some "saving" } }

/-- Witness for the amended C2: at the cap the last generated text is
returned as-is with no error after exactly five rounds. -/
theorem claim_C2_amended_witness :
    (generationPhase witC2Env).loopRounds ≤ RAG_CONFIG.maxToolRounds ∧
    (generationPhase witC2Env).result = .ok "saving" ∧
    (generationPhase witC2Env).loopRounds = RAG_CONFIG.maxToolRounds := by
  have h := claim_C2_amended witC2Env
  have h2 := (h.2 "grounding unavailable"
    (fun _ => { functionCallName := some "save_note", text := some "saving" })
    rfl (fun _ => rfl)).2 (fun j _ => rfl)
  refine ⟨h.1, ?_, h2.2⟩
  rw [h2.1]
  rfl

/-! ## Deduplication guard (`isDuplicateEmbedding`) -/

/-- `isDuplicateEmbedding(queryEmbedding, userId)` with the store search
abstracted: `search th k` is the `searchEmbeddings` call at
`matchThreshold th` and `matchCount k` for the turn's query embedding
(`.error` models a rejected promise, caught in the source).  Returns `true`
when storing should be skipped. -/
def isDuplicateEmbedding
    (search : ℚ → Nat → Except String (List KnowledgeItem)) : Bool :=
  match search RAG_CONFIG.deduplicationThreshold 1 with
  | .ok dupes => decide (dupes.length > 0)
  | .error _ => false

/-- **C9.**  The guard authorizes storing (`isDuplicateEmbedding = false`)
iff the similarity search at threshold 0.95 with result cap 1 returns no
match or errors; any nonempty result skips the store; a search error
authorizes it (permissive default). -/
theorem claim_C9 (search : ℚ → Nat → Except String (List KnowledgeItem)) :
    (isDuplicateEmbedding search = false ↔
      (search RAG_CONFIG.deduplicationThreshold 1 = .ok [] ∨
        ∃ e, search RAG_CONFIG.deduplicationThreshold 1 = .error e)) ∧
    (∀ l, search RAG_CONFIG.deduplicationThreshold 1 = .ok l → l ≠ [] →
      isDuplicateEmbedding search = true) ∧
    (∀ e, search RAG_CONFIG.deduplicationThreshold 1 = .error e →
      isDuplicateEmbedding search = false) ∧
    RAG_CONFIG.deduplicationThreshold = 95 / 100 := by
  refine ⟨?_, ?_, ?_, rfl⟩
  · unfold isDuplicateEmbedding
    cases hs : search RAG_CONFIG.deduplicationThreshold 1 with
    | ok l =>
      cases l with
      | nil => simp
      | cons a as => simp
    | error e => simp
  · intro l hl hne
    unfold isDuplicateEmbedding
    rw [hl]
    cases l with
    | nil => exact absurd rfl hne
    | cons a as => simp
  · intro e he
    unfold isDuplicateEmbedding
    rw [he]

/-- A stored memory at similarity 0.97 (above the dedup threshold). -/
def nearDupItem : KnowledgeItem :=
  { id := "m", content := "hi".toList, metadata := [], similarity := some (97 / 100) }

/-- Witness for C9: a nonempty match skips the store; a search error
authorizes it. -/
theorem claim_C9_witness :
    isDuplicateEmbedding (fun _ _ => .ok [nearDupItem]) = true ∧
    isDuplicateEmbedding (fun _ _ => .error "search down") = false :=
  ⟨(claim_C9 _).2.1 _ rfl (by simp),
   (claim_C9 _).2.2.1 "search down" rfl⟩

/-! ## The `ragChat` pipeline

The pipeline composed from the phases above, with every external call an
oracle of the environment.  Faithful control-flow points: the user-message
save and the query-embedding call are *not* guarded (their errors fail the
turn); the retrieval search carries `.catch(() => [])`; the dedup search is
guarded inside `isDuplicateEmbedding`; the embedding store is
fire-and-forget (its failure is logged only, so it does not appear in the
outcome); summarization is internally guarded; the grounded generation
attempt falls back to tool mode; tool-mode calls propagate errors; the
reply save is unguarded. -/

structure RagEnv where
  message : List Char
  saveUserMessage : Except String String
  generateEmbedding : Except String (List ℚ)
  searchRetrieval : List ℚ → Except String (List KnowledgeItem)
  recentRows : List ChatMessage
  summarizeCall : Except String (Option String)
  searchDedup : ℚ → Nat → Except String (List KnowledgeItem)
  searchAttempt : Except String GenResponse
  toolAttempt : Nat → Except String GenResponse
  saveReply : Except String String

structure RagOutcome where
  reply : String
  messageId : String
  relevantContext : String
  historySection : String
  summarizerCalls : List (List ChatMessage)
  configTrace : List GenConfig
  loopRounds : Nat
  storeAuthorized : Bool

/-- `ragChat`, following the source order: persist the user message; embed
(unguarded); search (failure ⇒ empty list) while fetching history; rerank;
compact history; dedup-guard the fire-and-forget store; generate (grounded
with tool-mode fallback and tool loop); persist the reply. -/
def ragChat (env : RagEnv) : Except String RagOutcome :=
  match env.saveUserMessage with
  | .error e => .error e
  | .ok userMsgId =>
    match env.generateEmbedding with
    | .error e => .error e
    | .ok queryEmbedding =>
      let rawMatches :=
        match env.searchRetrieval queryEmbedding with
        | .error _ => []
        | .ok ms => ms
      let recentMessages := getRecentMessages env.recentRows
      let rankedMatches :=
        rerankResults rawMatches env.message RAG_CONFIG.maxContextItems
      let relevantContext :=
        if rankedMatches.length > 0 then
          String.intercalate "\n" (rankedMatches.enum.map
            (fun p => "[Memory " ++ toString (p.1 + 1) ++ "]: " ++
              String.mk p.2.content))
        else ""
      let hist := historyPhase env.summarizeCall recentMessages
      let isDupe := isDuplicateEmbedding env.searchDedup
      let gen := generationPhase ⟨env.searchAttempt, env.toolAttempt⟩
      match gen.result with
      | .error e => .error e
      | .ok reply =>
        match env.saveReply with
        | .error e => .error e
        | .ok _ =>
          .ok { reply := reply
                messageId := userMsgId
                relevantContext := relevantContext
                historySection := hist.1
                summarizerCalls := hist.2
                configTrace := gen.configTrace
                loopRounds := gen.loopRounds
                storeAuthorized := !isDupe }

/-- The environment of the C1 counterexample: everything healthy except the
query-embedding call. -/
def cexC1Env : RagEnv :=
  { message := "hello".toList
    saveUserMessage := .ok "msg-1"
    generateEmbedding := .error "embedding backend down"
    searchRetrieval := fun _ => .ok []
    recentRows := []
    summarizeCall := .ok (some "s")
    searchDedup := fun _ _ => .ok []
    searchAttempt := .ok { functionCallName := none, text := some "hi there" }
    toolAttempt := fun _ => .ok { functionCallName := none, text := none }
    saveReply := .ok "msg-2" }

/-- **C1 counterexample.**  A failing query-embedding call fails the whole
turn (the source awaits `generateEmbedding` outside any try/catch), even
though every other collaborator succeeds — contradicting the claim that an
embedding failure degrades to an empty candidate list. -/
theorem claim_C1_counterexample :
    ragChat cexC1Env = .error "embedding backend down" := rfl

/-- **C1 (amended).**  A vector-search failure is exactly an empty candidate
list: the pipeline proceeds identically (with empty memory context) and a
successful turn under a failing search carries no relevant context; a
query-embedding failure, by contrast, propagates and fails the turn. -/
theorem claim_C1_amended (env : RagEnv) :
    (∀ e, ragChat { env with searchRetrieval := fun _ => .error e } =
      ragChat { env with searchRetrieval := fun _ => .ok [] }) ∧
    (∀ e out, (∀ emb, env.searchRetrieval emb = .error e) →
      ragChat env = .ok out → out.relevantContext = "") ∧
    (∀ e msgId, env.saveUserMessage = .ok msgId →
      env.generateEmbedding = .error e → ragChat env = .error e) := by
  refine ⟨?_, ?_, ?_⟩
  · intro e
    cases hsu : env.saveUserMessage <;>
      cases hge : env.generateEmbedding <;>
        simp [ragChat, hsu, hge]
  · intro e out hs hok
    cases hsu : env.saveUserMessage with
    | error e2 =>
      rw [ragChat, hsu] at hok
      exact absurd hok (by simp)
    | ok msgId =>
      cases hge : env.generateEmbedding with
      | error e2 =>
        rw [ragChat, hsu, hge] at hok
        exact absurd hok (by simp)
      | ok emb =>
        rw [ragChat, hsu, hge] at hok
        simp only [hs] at hok
        cases hgen : (generationPhase
            { searchAttempt := env.searchAttempt,
              toolAttempt := env.toolAttempt }).result with
        | error e3 =>
          simp only [hgen] at hok
          exact absurd hok (by simp)
        | ok reply =>
          simp only [hgen] at hok
          cases hsr : env.saveReply with
          | error e4 =>
            simp only [hsr] at hok
            exact absurd hok (by simp)
          | ok rid =>
            simp only [hsr] at hok
            have hout := (Except.ok.injEq _ _).mp hok
            rw [← hout]
            have hnil : rerankResults [] env.message RAG_CONFIG.maxContextItems = [] :=
              rfl
            simp [hnil]
  · intro e msgId hsu hge
    rw [ragChat, hsu, hge]

/-- A healthy baseline environment whose vector search is down. -/
def witC1Env : RagEnv :=
  { message := "hello".toList
    saveUserMessage := .ok "m1"
    generateEmbedding := .ok [1 / 2]
    searchRetrieval := fun _ => .error "vector search down"
    recentRows := []
    summarizeCall := .ok (some "s")
    searchDedup := fun _ _ => .ok []
    searchAttempt := .ok { functionCallName := none, text := some "hi there" }
    toolAttempt := fun _ => .ok { functionCallName := none, text := none }
    saveReply := .ok "m2" }

/-- The turn `witC1Env` completes with: reply delivered, no memory context. -/
def witC1Out : RagOutcome :=
  { reply := "hi there"
    messageId := "m1"
    relevantContext := ""
    historySection := ""
    summarizerCalls := []
    configTrace := [GenConfig.search]
    loopRounds := 0
    storeAuthorized := true }

/-- Witness for the amended C1: with the vector search down the pipeline
equals the empty-result pipeline, the turn completes with empty memory
context, and an embedding failure fails the turn. -/
theorem claim_C1_amended_witness :
    (ragChat { witC1Env with searchRetrieval := fun _ => .error "vector search down" } =
      ragChat { witC1Env with searchRetrieval := fun _ => .ok [] }) ∧
    witC1Out.relevantContext = "" ∧
    ragChat { witC1Env with generateEmbedding := .error "embed down" } =
      .error "embed down" :=
  ⟨(claim_C1_amended witC1Env).1 "vector search down",
   (claim_C1_amended witC1Env).2.1 "vector search down" witC1Out
     (fun _ => rfl) rfl,
   (claim_C1_amended _).2.2 "embed down" "m1" rfl rfl⟩

end Zuychin
